import Mathlib

/-!
Verification of the stock-price tracker (`src/notion_update.py`).

The script reconciles a Notion database of tracked assets with live quotes
from the Sina finance endpoints.  This file gives a shallow embedding of its
core logic and proves the specification claims about it.

Modelling conventions:
* Python strings are `String`; the per-character operations (`lower`, `upper`,
  `strip`, `split`, substring test) are re-implemented over the underlying
  character list so that every definition is executable and kernel-reducible.
* Python floats are modelled as `ℚ`.  `float(s)` is modelled by `pyFloat?`,
  restricted to optionally-signed decimal literals (the shapes the quote
  feeds produce); `:.2f` / `:,.2f` formatting is modelled by `fmt2` /
  `fmtGrouped2`, rounding ties upward (the tie-breaking mode of binary float
  formatting never matters for the values arising here).
* The regex `"([^"]+)"` (first quoted, non-empty chunk) is `firstQuoted`.
* Network collaborators (suggest service, quote service, FX endpoint, Notion
  store) are an explicit environment `Env` of response texts and a patch
  outcome; fallible calls return `Option`.
-/

namespace NotionUpdate

/-- Lower-case a string character-wise, modelling Python `str.lower()` on the
ASCII identifiers this script handles. -/
def lowerStr (s : String) : String := String.mk (s.data.map Char.toLower)

/-- Surrounding-whitespace trim, modelling Python `str.strip()`. -/
def wsTrim (s : String) : String :=
  String.mk (((s.data.dropWhile Char.isWhitespace).reverse.dropWhile Char.isWhitespace).reverse)

/-- Does `s` start with `p`?  Models Python `str.startswith`. -/
def startsWithStr (p s : String) : Bool := p.data.isPrefixOf s.data

/-- Substring scan used to model Python `p in s`. -/
def infixOfAux : List Char → List Char → Bool
  | p, [] => p.isEmpty
  | p, l@(_ :: rest) => p.isPrefixOf l || infixOfAux p rest

/-- Substring test, modelling Python `p in s`. -/
def containsSub (p s : String) : Bool := infixOfAux p.data s.data

/-- Split a character list at every occurrence of `c`, modelling
Python `str.split(c)` (so `"".split(c) = [""]`). -/
def splitOnCharAux (c : Char) : List Char → List (List Char)
  | [] => [[]]
  | a :: rest =>
    let r := splitOnCharAux c rest
    if a = c then [] :: r
    else match r with
      | [] => [[a]]
      | h :: t => (a :: h) :: t

/-- String version of `splitOnCharAux`. -/
def splitOnChar (c : Char) (s : String) : List String :=
  (splitOnCharAux c s.data).map String.mk

/-- Scan for the first match of the regex `"([^"]+)"`: a double quote, one or
more non-quote characters, and a closing quote. -/
def firstQuotedAux : List Char → Option (List Char)
  | [] => none
  | c :: rest =>
    if c = '"' then
      let body := rest.takeWhile (fun a => a ≠ '"')
      if body.isEmpty then firstQuotedAux rest
      else if body.length < rest.length then some body else none
    else firstQuotedAux rest

/-- First quoted non-empty chunk of a response body, modelling
`re.search(r -quote-captured-quote- , content)`. -/
def firstQuoted (s : String) : Option String := (firstQuotedAux s.data).map String.mk

/-- Accumulator loop for decimal-digit evaluation. -/
def digitsToNatAux (acc : ℕ) : List Char → ℕ
  | [] => acc
  | c :: rest => digitsToNatAux (acc * 10 + (c.toNat - 48)) rest

/-- Numeric value of a list of decimal digits (empty list gives 0, matching
the use sites where emptiness is checked separately). -/
def digitsToNat (l : List Char) : ℕ := digitsToNatAux 0 l

/-- Parse an unsigned decimal literal (digits, optionally with a fractional
part, as Python `float` accepts for the feeds' fields). -/
def parseUnsignedQ (l : List Char) : Option ℚ :=
  let ip := l.takeWhile Char.isDigit
  let rest := l.dropWhile Char.isDigit
  match rest with
  | [] => if ip.isEmpty then none else some ((digitsToNat ip : ℕ) : ℚ)
  | '.' :: fp =>
    if fp.all Char.isDigit && !(ip.isEmpty && fp.isEmpty) then
      some (((digitsToNat ip : ℕ) : ℚ) + ((digitsToNat fp : ℕ) : ℚ) / (10 : ℚ) ^ fp.length)
    else none
  | _ => none

/-- Model of Python `float(s)` on the decimal literals the quote feeds carry:
optional surrounding whitespace, optional sign, digits with an optional
fractional part.  Returns `none` where `float` raises `ValueError`. -/
def pyFloat? (s : String) : Option ℚ :=
  match (wsTrim s).data with
  | '+' :: rest => parseUnsignedQ rest
  | '-' :: rest => (parseUnsignedQ rest).map Neg.neg
  | l => parseUnsignedQ l

/-- Floor of a rational, computed on the normalized numerator/denominator
(kernel-reducible form of `Int.floor`). -/
def qfloor (q : ℚ) : ℤ := q.num / (q.den : ℤ)

/-- Round a rational to integer cents (value times 100), ties upward. -/
def qRoundCents (q : ℚ) : ℤ := qfloor (q * 100 + 1 / 2)

/-- Two-digit zero-padded rendering of a sub-hundred remainder. -/
def pad2 (n : ℕ) : String := if n < 10 then "0" ++ toString n else toString n

/-- Fixed-point rendering with two decimals, modelling the `:.2f` format. -/
def fmt2 (q : ℚ) : String :=
  let n := qRoundCents q
  (if n < 0 then "-" else "") ++ toString (n.natAbs / 100) ++ "." ++ pad2 (n.natAbs % 100)

/-- Group a reversed digit list into blocks of three. -/
def chunk3 : List Char → List (List Char)
  | a :: b :: c :: d :: rest => [a, b, c] :: chunk3 (d :: rest)
  | l => [l]

/-- Insert thousands separators into a digit string. -/
def groupThousands (s : String) : String :=
  String.mk ((List.intercalate [','] (chunk3 s.data.reverse)).reverse)

/-- Fixed-point rendering with two decimals and thousands grouping,
modelling the `:,.2f` format. -/
def fmtGrouped2 (q : ℚ) : String :=
  let n := qRoundCents q
  (if n < 0 then "-" else "")
    ++ groupThousands (toString (n.natAbs / 100)) ++ "." ++ pad2 (n.natAbs % 100)

/-! ### SchemaMapper (`fuzzy_map_properties`, lines 27-64) -/

/-- Synonym dictionary of `fuzzy_map_properties`, in declared order. -/
def mapping_rules : List (String × List String) :=
  [("NAME", ["Investment", "Name", "名称", "投资项目", "股票名称"]),
   ("PRICE", ["Current Price", "Price", "价格", "现价", "当前价格"]),
   ("CODE", ["StockCode", "代码", "Code", "股票代码", "Security Code"]),
   ("UPDATE", ["UpdateAt", "Updated", "时间", "更新时间", "Last Updated"]),
   ("BUY_PRICE", ["Buy Price", "买入价", "成本价", "Cost Price"]),
   ("QUANTITY", ["Quantity", "数量", "持仓量"]),
   ("ROI_DETAILS", ["ROI Details", "盈亏详情", "状态", "ROI Detail"]),
   ("EXCHANGE_RATE", ["Exchange Rate", "汇率", "Rate"])]

/-- Synonym list of the `PRICE` rule (see `mapping_rules_price`). -/
def price_synonyms : List String :=
  ["Current Price", "Price", "价格", "现价", "当前价格"]

/-- Lookup in the `actual_keys` dictionary: the dict comprehension
`k.strip().lower() -> k` over the schema's columns, where a later column
overwrites an earlier one on a key collision (hence the reverse search).
`props` lists the schema's columns as (name, type) in Notion's order. -/
def actualLookup (props : List (String × String)) (k : String) : Option String :=
  (props.reverse.find? (fun p => lowerStr (wsTrim p.1) == k)).map (fun p => p.1)

/-- Resolution of one canonical field: first synonym (in declared order)
present among the actual columns wins; `NAME` falls back to the first
title-typed column. -/
def mapField (props : List (String × String)) (key : String) (syns : List String) :
    Option String :=
  match syns.findSome? (fun syn => actualLookup props (lowerStr syn)) with
  | some real => some real
  | none =>
    if key == "NAME" then (props.find? (fun p => p.2 == "title")).map (fun p => p.1)
    else none

/-- The fuzzy property map: canonical key to actual column name, built in
rule order; unresolved fields are absent. -/
def fuzzy_map_properties (props : List (String × String)) : List (String × String) :=
  mapping_rules.filterMap
    (fun r => (mapField props r.1 r.2).map (fun real => (r.1, real)))

/-- Lookup of a canonical key in a built property map (`PROP_MAP.get`). -/
def lookupMap (pm : List (String × String)) (k : String) : Option String :=
  (pm.find? (fun p => p.1 == k)).map (fun p => p.2)

/-- Membership of a canonical key in `PROP_MAP` (Python `key in PROP_MAP`). -/
def hasKey (pm : List (String × String)) (k : String) : Bool := (lookupMap pm k).isSome

/-! ### IdentifierResolver (`get_stock_code_by_name`, lines 66-120) -/

/-- Cross-border (Hong-Kong) hint: the script tests `"H" in name.upper()`,
i.e. whether any character of the name upper-cases to `H`. -/
def is_h_hint (name : String) : Bool := name.data.any (fun c => c.toUpper == 'H')

/-- Domestic (A-share) hint: the script tests `"A" in name.upper()`. -/
def is_a_hint (name : String) : Bool := name.data.any (fun c => c.toUpper == 'A')

/-- Characters removed by the trailing regex `[A|H]$` under IGNORECASE: the
class contains `A`, `H`, their lower-case forms, and the literal bar. -/
def isHintChar (c : Char) : Bool :=
  c == 'A' || c == 'a' || c == 'H' || c == 'h' || c == '|'

/-- One application of `re.sub(r'[A|H]$', '', name, flags=re.IGNORECASE)`:
the anchored class matches at most the final character. -/
def stripHintChar (name : String) : String :=
  match name.data.getLast? with
  | some c => if isHintChar c then String.mk name.data.dropLast else name
  | none => name

/-- The query string actually sent to the suggest service:
`re.sub(r'[A|H]$', '', name, flags=re.IGNORECASE).strip()`. -/
def clean_name (name : String) : String := wsTrim (stripHintChar name)

/-- Candidate extraction from a suggest response line: items split on `;`,
fields on `,`; items with more than three fields yield
(display name, identifier) = (parts[0], parts[3]). -/
def parseCandidates (line : String) : List (String × String) :=
  (splitOnChar ';' line).filterMap (fun item =>
    match splitOnChar ',' item with
    | n :: _ :: _ :: c :: _ => some (n, c)
    | _ => none)

/-- The per-candidate filter of the resolver: an H hint demands an `hk`
identifier, an A hint demands `sh`/`sz`, and with no hint only recognized
markets (`sh`/`sz`/`hk`) are kept. -/
def candidateOk (hHint aHint : Bool) (code : String) : Bool :=
  let cl := lowerStr code
  if hHint && !(startsWithStr "hk" cl) then false
  else if aHint && !(startsWithStr "sh" cl || startsWithStr "sz" cl) then false
  else if !(hHint || aHint)
      && !(startsWithStr "sh" cl || startsWithStr "sz" cl || startsWithStr "hk" cl) then false
  else true

/-- The identifier resolver `get_stock_code_by_name`: hint detection,
trailing-character stripping, suggest query (`suggest` maps the cleaned
query to the raw response text), candidate parsing, hint filtering with
fallback to the unfiltered list, and substring-preference selection. -/
def get_stock_code_by_name (suggest : String → String) (name : String) : Option String :=
  let cn := clean_name name
  match firstQuoted (suggest cn) with
  | none => none
  | some line =>
    match parseCandidates line with
    | [] => none
    | r :: rs =>
      let results := r :: rs
      let filtered := results.filter (fun x => candidateOk (is_h_hint name) (is_a_hint name) x.2)
      let filtered2 := if filtered.isEmpty then results else filtered
      match (filtered2.find? (fun f => containsSub cn f.1)).map (fun f => f.2) with
      | some c => if c == "" then some (filtered2.headD r).2 else some c
      | none => some (filtered2.headD r).2

/-! ### CurrencyConverter (`get_hkd_cny_rate`, lines 122-137) -/

/-- The FX fetch: parse the quoted record of the rate endpoint, rate at
field index 1; on any failure fall back to the fixed rate 0.915. -/
def get_hkd_cny_rate (content : String) : ℚ :=
  match firstQuoted content with
  | none => 915 / 1000
  | some line =>
    match (splitOnChar ',' line)[1]? with
    | none => 915 / 1000
    | some f =>
      match pyFloat? f with
      | none => 915 / 1000
      | some r => r

/-! ### QuoteFetcher (`get_stock_price_sina`, lines 139-171) -/

/-- The quote fetch: the identifier is lower-cased, `hk`-prefixed codes are
cross-border; the response must parse as a quoted record with at least four
fields; cross-border reads field 6 (requiring more than seven fields in the
guard `len(data) > 6`), domestic reads field 3; `float` failure is absent. -/
def get_stock_price_sina (code content : String) : Option ℚ :=
  let is_hk := startsWithStr "hk" (lowerStr code)
  match firstQuoted content with
  | none => none
  | some line =>
    let data := splitOnChar ',' line
    if h4 : data.length < 4 then none
    else if is_hk then
      if h6 : 6 < data.length then pyFloat? (data.get ⟨6, h6⟩) else none
    else pyFloat? (data.get ⟨3, by omega⟩)

/-! ### Update payload (`update_notion_page`, lines 213-248) -/

/-- The ROI summary text and its color: percentage and thousands-grouped
total at two decimals, non-negative per-unit profit signed `+` and colored
`red`, negative profit unsigned and colored `green`. -/
def roiStatus (display_price buy_price quantity rate : ℚ) : String × String :=
  let profit := display_price - buy_price
  let roi_pct := profit / buy_price * 100
  let total := profit * quantity * rate
  let sign := if 0 ≤ profit then "+" else ""
  let color := if 0 ≤ profit then "red" else "green"
  (sign ++ fmt2 roi_pct ++ "% (" ++ sign ++ fmtGrouped2 total ++ " CNY)", color)

/-- The fields of one Notion update request, keyed canonically (a field is
`none` when its canonical key is unmapped and therefore not sent). -/
structure Payload where
  price : Option ℚ
  lastUpdated : Option String
  exchangeRate : Option ℚ
  codeField : Option String
  roi : Option (String × String)
deriving DecidableEq, Inhabited

/-- Assembly of the update payload from `update_notion_page`: the native
price under `PRICE`, the timestamp under `UPDATE`, the rate under
`EXCHANGE_RATE`, the write-back code only when truthy and `CODE` is mapped,
and the ROI summary only when `ROI_DETAILS` is mapped and `buy_price > 0`. -/
def update_notion_page (pm : List (String × String)) (display_price : ℚ)
    (code : Option String) (buy_price quantity rate : ℚ) (now : String) : Payload where
  price := if hasKey pm "PRICE" then some display_price else none
  lastUpdated := if hasKey pm "UPDATE" then some now else none
  exchangeRate := if hasKey pm "EXCHANGE_RATE" then some rate else none
  codeField :=
    match code with
    | some c => if c != "" && hasKey pm "CODE" then some c else none
    | none => none
  roi :=
    if hasKey pm "ROI_DETAILS" ∧ 0 < buy_price then
      some (roiStatus display_price buy_price quantity rate)
    else none

/-! ### PositionReconciler (`main`, lines 282-313) -/

/-- One row of the fetched stock list (`fetch_notion_stocks` output). -/
structure Entry where
  page_id : String
  code : String
  name : String
  buy_price : ℚ
  quantity : ℚ
deriving DecidableEq, Inhabited

/-- The external collaborators and ambient inputs of one run. -/
structure Env where
  tokenOk : Bool
  dbProps : List (String × String)
  entries : List Entry
  suggestResponse : String → String
  quoteResponse : String → String
  rateResponse : String
  patchOk : String → Bool
  now : String

/-- Observable outcome of processing one row: whether the resolver ran,
the identifier used, the fetched quote, whether this row called the FX
endpoint, the rate applied, the payload sent (if any), whether the success
counter was incremented, and the store's patch outcome. -/
structure RowStep where
  entry : Entry
  resolverCalled : Bool
  actualCode : Option String
  rawPrice : Option ℚ
  fetchedRate : Bool
  rateUsed : Option ℚ
  payload : Option Payload
  counted : Bool
  writeOk : Bool
deriving DecidableEq, Inhabited

/-- One iteration of the main loop, threading the `hkd_rate` cache:
`actual_code = code or get_stock_code_by_name(name)`; a falsy code skips;
a failed quote skips; `hk` codes take the cached rate or fetch it once,
others use rate 1; the payload is sent and the row counted regardless of
the patch outcome (the patch call swallows its errors). -/
def processRow (env : Env) (pm : List (String × String)) (hkd : Option ℚ) (e : Entry) :
    RowStep × Option ℚ :=
  let resolverCalled : Bool := e.code == ""
  let actual : Option String :=
    if e.code == "" then get_stock_code_by_name env.suggestResponse e.name else some e.code
  match actual with
  | none => (⟨e, resolverCalled, none, none, false, none, none, false, false⟩, hkd)
  | some c =>
    if c == "" then (⟨e, resolverCalled, some c, none, false, none, none, false, false⟩, hkd)
    else
      match get_stock_price_sina c (env.quoteResponse c) with
      | none => (⟨e, resolverCalled, some c, none, false, none, none, false, false⟩, hkd)
      | some p =>
        let writeBack : Option String := if e.code == "" then some c else none
        if startsWithStr "hk" (lowerStr c) then
          match hkd with
          | some r =>
            (⟨e, resolverCalled, some c, some p, false, some r,
              some (update_notion_page pm p writeBack e.buy_price e.quantity r env.now), true,
              env.patchOk e.page_id⟩, some r)
          | none =>
            let r := get_hkd_cny_rate env.rateResponse
            (⟨e, resolverCalled, some c, some p, true, some r,
              some (update_notion_page pm p writeBack e.buy_price e.quantity r env.now), true,
              env.patchOk e.page_id⟩, some r)
        else
          (⟨e, resolverCalled, some c, some p, false, some 1,
            some (update_notion_page pm p writeBack e.buy_price e.quantity 1 env.now), true,
            env.patchOk e.page_id⟩, hkd)

/-- The main loop over the fetched entries, threading the rate cache. -/
def runAux (env : Env) (pm : List (String × String)) :
    Option ℚ → List Entry → List RowStep
  | _, [] => []
  | hkd, e :: rest =>
    let pr := processRow env pm hkd e
    pr.1 :: runAux env pm pr.2 rest

/-- The reported success count: rows whose update request was issued. -/
def successCount (tr : List RowStep) : ℕ := (tr.filter (fun s => s.counted)).length

/-- Schema verification: build the fuzzy map and require `PRICE` to have
resolved (`return "PRICE" in PROP_MAP`). -/
def verify_database (props : List (String × String)) : Bool × List (String × String) :=
  let pm := fuzzy_map_properties props
  (hasKey pm "PRICE", pm)

/-- The whole run (`main`): abort with nothing processed unless the token is
present and the schema verifies, otherwise process every entry in order and
report the success count. -/
def main_run (env : Env) : List RowStep × ℕ :=
  if env.tokenOk && (verify_database env.dbProps).1 then
    let tr := runAux env (verify_database env.dbProps).2 none env.entries
    (tr, successCount tr)
  else ([], 0)

/-- Number of FX-endpoint calls recorded in a trace. -/
def rateFetchCount (tr : List RowStep) : ℕ := tr.countP (fun s => s.fetchedRate)

/-- Does a step's identifier denote the cross-border market? -/
def isHKStep (s : RowStep) : Bool :=
  match s.actualCode with
  | some c => startsWithStr "hk" (lowerStr c)
  | none => false

/-- A step that was processed through the rate stage on a cross-border
identifier. -/
def hkProcessed (s : RowStep) : Bool := s.payload.isSome && isHKStep s

/-- Modelled from the spec (§4.2 step 1), for comparison with the code: a
market hint as the spec words it, namely a trailing case-insensitive hint
character. -/
def specTrailingHint (name : String) (c : Char) : Bool :=
  match name.data.getLast? with
  | some a => a.toUpper == c
  | none => false

/-! ### Concrete runs used to exercise the theorems -/

/-- A row carrying a user-supplied domestic identifier. -/
def entryC1 : Entry := ⟨"p1", "sh600000", "Bank", 0, 0⟩

/-- A run with one domestic row whose quote succeeds but whose store write
fails (`patchOk` is constantly false). -/
def envC1 : Env :=
  ⟨true, [("Name", "title"), ("Price", "number")], [entryC1],
   fun _ => "", fun _ => "var x=\"a,b,c,7\";", "", fun _ => false, "T"⟩

/-- A run with two cross-border rows, both fetchable. -/
def envC5 : Env :=
  ⟨true, [("Name", "title"), ("Price", "number")],
   [⟨"p1", "hk0700", "T", 0, 0⟩, ⟨"p2", "hk0941", "M", 0, 0⟩],
   fun _ => "", fun _ => "x=\"a,b,c,d,e,f,9\";", "y=\"u,2,v\";", fun _ => true, "T"⟩

/-- A schema with no column matching any `PRICE` synonym. -/
def propsC4 : List (String × String) := [("名字", "title"), ("Cost", "number")]

/-- A run over the `PRICE`-less schema `propsC4`. -/
def envC4 : Env :=
  ⟨true, propsC4, [entryC1],
   fun _ => "", fun _ => "var x=\"a,b,c,7\";", "", fun _ => true, "T"⟩

/-- A row with both identifier and display name empty. -/
def entryC9 : Entry := ⟨"p9", "", "", 0, 0⟩

/-- A run containing only the unresolvable row `entryC9`, whose suggest
service returns an unparseable (empty) response. -/
def envC9 : Env :=
  ⟨true, [("Name", "title"), ("Price", "number")], [entryC9],
   fun _ => "", fun _ => "", "", fun _ => true, "T"⟩

/-- The property map of `envC9`'s schema. -/
def pmC9 : List (String × String) := fuzzy_map_properties envC9.dbProps

/-- The step produced for the empty row `entryC9`. -/
def stepC9 : RowStep := (processRow envC9 pmC9 none entryC9).1

/-- A property map in which `CODE` is mapped. -/
def pmC8 : List (String × String) :=
  fuzzy_map_properties [("Name", "title"), ("Price", "number"), ("Code", "rich_text")]

/-- The step produced for the user-coded row `entryC1` under `pmC8`. -/
def stepC8 : RowStep := (processRow envC1 pmC8 none entryC1).1

/-- The first step of the `envC5` run. -/
def stepC6 : RowStep := ((main_run envC5).1).headD default

/-- The payload issued by `stepC6`. -/
def payC6 : Payload := (stepC6.payload).getD default

/-- A schema whose price column is named by a non-Latin synonym. -/
def propsC10 : List (String × String) := [("现价", "number"), ("Main", "title")]

/-! ### Helper lemmas -/

/-- The computable floor agrees with `Int.floor`. -/
lemma qfloor_eq (q : ℚ) : qfloor q = ⌊q⌋ := Rat.floor_def.symm

/-- Sanity link: `price_synonyms` is exactly the `PRICE` rule of the
synonym dictionary. -/
lemma mapping_rules_price : ("PRICE", price_synonyms) ∈ mapping_rules := by decide

lemma processRow_entry (env : Env) (pm : List (String × String)) (hkd : Option ℚ) (e : Entry) :
    (processRow env pm hkd e).1.entry = e := by
  unfold processRow
  try dsimp only
  repeat' split
  all_goals rfl

lemma processRow_counted (env : Env) (pm : List (String × String)) (hkd : Option ℚ) (e : Entry) :
    (processRow env pm hkd e).1.counted = (processRow env pm hkd e).1.payload.isSome := by
  unfold processRow
  try dsimp only
  repeat' split
  all_goals rfl

lemma processRow_resolver (env : Env) (pm : List (String × String)) (hkd : Option ℚ) (e : Entry) :
    (processRow env pm hkd e).1.resolverCalled = (e.code == "") := by
  unfold processRow
  try dsimp only
  repeat' split
  all_goals rfl

lemma processRow_fetch_true (env : Env) (pm : List (String × String)) (hkd : Option ℚ)
    (e : Entry) (h : (processRow env pm hkd e).1.fetchedRate = true) :
    hkd = none ∧ (processRow env pm hkd e).2 = some (get_hkd_cny_rate env.rateResponse) := by
  unfold processRow at *
  try dsimp only at h
  repeat' split at h
  all_goals simp_all

lemma processRow_fetch_false (env : Env) (pm : List (String × String)) (hkd : Option ℚ)
    (e : Entry) (h : (processRow env pm hkd e).1.fetchedRate = false) :
    (processRow env pm hkd e).2 = hkd := by
  unfold processRow at *
  try dsimp only at h
  repeat' split at h
  all_goals simp_all

lemma processRow_domestic (env : Env) (pm : List (String × String)) (hkd : Option ℚ)
    (e : Entry) (h : (processRow env pm hkd e).1.payload.isSome = true)
    (hd : isHKStep (processRow env pm hkd e).1 = false) :
    (processRow env pm hkd e).1.fetchedRate = false
      ∧ (processRow env pm hkd e).1.rateUsed = some 1 := by
  unfold processRow at *
  try dsimp only at h
  repeat' split at h
  all_goals simp_all [isHKStep]

lemma processRow_first_hk (env : Env) (pm : List (String × String)) (e : Entry)
    (h : hkProcessed (processRow env pm none e).1 = true) :
    (processRow env pm none e).1.fetchedRate = true := by
  unfold hkProcessed isHKStep processRow at *
  try dsimp only at h
  repeat' split at h
  all_goals simp_all

lemma processRow_price (env : Env) (pm : List (String × String)) (hkd : Option ℚ)
    (e : Entry) (pay : Payload) (h : (processRow env pm hkd e).1.payload = some pay) :
    pay.price = none ∨ pay.price = (processRow env pm hkd e).1.rawPrice := by
  unfold processRow at *
  try dsimp only at h
  repeat' split at h
  all_goals simp_all [update_notion_page]
  all_goals (cases h; split <;> simp)

lemma processRow_no_code (env : Env) (pm : List (String × String)) (hkd : Option ℚ)
    (e : Entry) (pay : Payload) (h : (processRow env pm hkd e).1.payload = some pay)
    (hne : e.code ≠ "") : pay.codeField = none := by
  have hb : (e.code == "") = false := beq_eq_false_iff_ne.mpr hne
  unfold processRow at h
  try dsimp only at h
  simp only [hb] at h
  simp at h
  repeat' split at h
  all_goals first
    | exact Option.noConfusion h
    | (rw [Option.some.injEq] at h; subst h; rfl)

lemma processRow_writeback (env : Env) (pm : List (String × String)) (hkd : Option ℚ)
    (e : Entry) (pay : Payload) (h : (processRow env pm hkd e).1.payload = some pay)
    (hc : pay.codeField ≠ none) : e.code = "" := by
  by_contra hne
  exact hc (processRow_no_code env pm hkd e pay h hne)

lemma processRow_patch (env : Env) (pm : List (String × String)) (hkd : Option ℚ)
    (e : Entry) (f : String → Bool) :
    (processRow { env with patchOk := f } pm hkd e).1.counted
        = (processRow env pm hkd e).1.counted
    ∧ (processRow { env with patchOk := f } pm hkd e).1.payload
        = (processRow env pm hkd e).1.payload
    ∧ (processRow { env with patchOk := f } pm hkd e).2 = (processRow env pm hkd e).2 := by
  unfold processRow
  try dsimp only
  repeat' split
  all_goals simp_all

lemma runAux_mem {env : Env} {pm : List (String × String)} :
    ∀ {entries : List Entry} {hkd : Option ℚ} {s : RowStep},
      s ∈ runAux env pm hkd entries →
      ∃ hkd0 e, s = (processRow env pm hkd0 e).1 ∧ e ∈ entries := by
  intro entries
  induction entries with
  | nil => intro hkd s hs; simp [runAux] at hs
  | cons e rest ih =>
    intro hkd s hs
    rw [runAux] at hs
    rcases List.mem_cons.mp hs with h | h
    · exact ⟨hkd, e, h, List.mem_cons_self e rest⟩
    · rcases ih h with ⟨hkd0, e0, rfl, he0⟩
      exact ⟨hkd0, e0, rfl, List.mem_cons_of_mem e he0⟩

lemma successCount_cons (s : RowStep) (tr : List RowStep) :
    successCount (s :: tr) = successCount tr + (if s.counted then 1 else 0) := by
  simp only [successCount, List.filter_cons]
  split <;> simp [Nat.add_comm]

lemma rateFetchCount_cons (s : RowStep) (tr : List RowStep) :
    rateFetchCount (s :: tr) = rateFetchCount tr + (if s.fetchedRate then 1 else 0) := by
  simp only [rateFetchCount]
  rw [List.countP_cons]

lemma runAux_fetch_zero (env : Env) (pm : List (String × String)) (r : ℚ) :
    ∀ entries : List Entry, rateFetchCount (runAux env pm (some r) entries) = 0 := by
  intro entries
  induction entries with
  | nil => simp [runAux, rateFetchCount]
  | cons e rest ih =>
    rw [runAux]
    have hfr : (processRow env pm (some r) e).1.fetchedRate = false := by
      cases hf : (processRow env pm (some r) e).1.fetchedRate
      · rfl
      · exact absurd (processRow_fetch_true env pm (some r) e hf).1 (by simp)
    rw [rateFetchCount_cons, processRow_fetch_false env pm (some r) e hfr, ih, hfr]
    rfl

lemma runAux_fetch_le_one (env : Env) (pm : List (String × String)) :
    ∀ (entries : List Entry) (hkd : Option ℚ),
      rateFetchCount (runAux env pm hkd entries) ≤ 1 := by
  intro entries
  induction entries with
  | nil => intro hkd; simp [runAux, rateFetchCount]
  | cons e rest ih =>
    intro hkd
    rw [runAux, rateFetchCount_cons]
    cases hf : (processRow env pm hkd e).1.fetchedRate
    · rw [processRow_fetch_false env pm hkd e hf]
      simpa using ih hkd
    · rcases processRow_fetch_true env pm hkd e hf with ⟨-, hsnd⟩
      rw [hsnd, runAux_fetch_zero]
      simp

lemma runAux_first_hk (env : Env) (pm : List (String × String)) :
    ∀ entries : List Entry,
      (∃ s ∈ runAux env pm none entries, hkProcessed s = true) →
      rateFetchCount (runAux env pm none entries) = 1 := by
  intro entries
  induction entries with
  | nil => rintro ⟨s, hs, -⟩; simp [runAux] at hs
  | cons e rest ih =>
    rintro ⟨s, hs, hp⟩
    rw [runAux] at hs ⊢
    rw [rateFetchCount_cons]
    cases hf : (processRow env pm none e).1.fetchedRate
    · have hsnd := processRow_fetch_false env pm none e hf
      rcases List.mem_cons.mp hs with rfl | htail
      · exact absurd (processRow_first_hk env pm e hp) (by simp [hf])
      · rw [hsnd] at htail ⊢
        rw [ih ⟨s, htail, hp⟩]
        rfl
    · rcases processRow_fetch_true env pm none e hf with ⟨-, hsnd⟩
      rw [hsnd, runAux_fetch_zero]
      rfl

/-! ### Claim theorems -/

/-- C2: for every identifier, the quote fetch reads the current price from
field index 6 of the quoted CSV record when the identifier has the
case-insensitive `hk` prefix, and from field index 3 for any other prefix;
it is absent when the response has no quoted record, the required index is
out of range, or the field does not parse as a number. -/
theorem c2_quote_field_by_market (code content : String) :
    (startsWithStr "hk" (lowerStr code) = true →
      get_stock_price_sina code content =
        match firstQuoted content with
        | none => none
        | some line =>
          let d := splitOnChar ',' line
          if h : 6 < d.length then pyFloat? (d.get ⟨6, h⟩) else none)
    ∧ (startsWithStr "hk" (lowerStr code) = false →
      get_stock_price_sina code content =
        match firstQuoted content with
        | none => none
        | some line =>
          let d := splitOnChar ',' line
          if h : 3 < d.length then pyFloat? (d.get ⟨3, h⟩) else none) := by
  constructor
  · intro hm
    unfold get_stock_price_sina
    try dsimp only
    rw [hm]
    cases hq : firstQuoted content with
    | none => rfl
    | some line =>
      try dsimp only
      by_cases h6 : 6 < (splitOnChar ',' line).length
      · have h4 : ¬ (splitOnChar ',' line).length < 4 := by omega
        simp [h4, h6]
      · by_cases h4 : (splitOnChar ',' line).length < 4
        · simp [h4, h6]
        · simp [h4, h6]
  · intro hm
    unfold get_stock_price_sina
    try dsimp only
    rw [hm]
    cases hq : firstQuoted content with
    | none => rfl
    | some line =>
      try dsimp only
      by_cases h4 : (splitOnChar ',' line).length < 4
      · simp [h4, show ¬ 3 < (splitOnChar ',' line).length by omega]
      · simp [h4, show 3 < (splitOnChar ',' line).length by omega]

/-- Witness for C2: a cross-border identifier (upper-cased, exercising the
case-insensitive prefix) reads field 6; a domestic one reads field 3. -/
theorem c2_witness :
    get_stock_price_sina "HK0700" "x=\"a,b,c,d,e,f,9\";" = some 9
    ∧ get_stock_price_sina "sz000001" "x=\"a,b,7,4\";" = some 4 := by
  constructor
  · exact ((c2_quote_field_by_market "HK0700" "x=\"a,b,c,d,e,f,9\";").1 (by decide)).trans
      (by decide)
  · exact ((c2_quote_field_by_market "sz000001" "x=\"a,b,7,4\";").2 (by decide)).trans
      (by decide)

/-- Counterexample to C3 as stated: the code's hint detection is a
containment test (`"H" in name.upper()`), not a trailing-character test:
`"Hub"` carries a cross-border hint though it does not end in `H`, and
`"Apex"` a domestic hint though it does not end in `A`. -/
theorem c3_counterexample :
    is_h_hint "Hub" = true ∧ specTrailingHint "Hub" 'H' = false
    ∧ is_a_hint "Apex" = true ∧ specTrailingHint "Apex" 'A' = false := by decide

/-- C3 (amended): the resolver detects a cross-border hint iff the name
contains a character that upper-cases to `H`, anywhere in the name, and a
domestic hint iff it contains one that upper-cases to `A`; before querying,
the final character is removed exactly when it is in the class
`A`, `a`, `H`, `h`, `|`, and surrounding whitespace is stripped. -/
theorem c3_hint_detection_amended (name : String) :
    (is_h_hint name = true ↔ ∃ c ∈ name.data, c.toUpper = 'H')
    ∧ (is_a_hint name = true ↔ ∃ c ∈ name.data, c.toUpper = 'A')
    ∧ (∀ c, name.data.getLast? = some c → isHintChar c = true →
        clean_name name = wsTrim (String.mk name.data.dropLast))
    ∧ (∀ c, name.data.getLast? = some c → isHintChar c = false →
        clean_name name = wsTrim name) := by
  refine ⟨?_, ?_, ?_, ?_⟩
  · simp [is_h_hint, List.any_eq_true]
  · simp [is_a_hint, List.any_eq_true]
  · intro c hlast hhint
    unfold clean_name stripHintChar
    rw [hlast]
    simp [hhint]
  · intro c hlast hhint
    unfold clean_name stripHintChar
    rw [hlast]
    simp [hhint]

/-- Witness for C3 (amended): `"BankA"` loses its final `A` before the
query and carries a domestic hint. -/
theorem c3_witness :
    clean_name "BankA" = wsTrim (String.mk "BankA".data.dropLast)
    ∧ is_a_hint "BankA" = true := by
  refine ⟨(c3_hint_detection_amended "BankA").2.2.1 'A' (by decide) (by decide), ?_⟩
  exact ((c3_hint_detection_amended "BankA").2.1).mpr (by decide)

/-- C8: a row with a non-empty user-supplied identifier never triggers the
resolver and never carries `CODE` in its payload; a payload carries `CODE`
only when the row's original identifier was empty. -/
theorem c8_code_preserved (env : Env) (pm : List (String × String)) (hkd : Option ℚ)
    (e : Entry) :
    (e.code ≠ "" →
      (processRow env pm hkd e).1.resolverCalled = false
      ∧ ∀ pay, (processRow env pm hkd e).1.payload = some pay → pay.codeField = none)
    ∧ (∀ pay, (processRow env pm hkd e).1.payload = some pay →
        pay.codeField ≠ none → e.code = "") := by
  constructor
  · intro hne
    refine ⟨?_, fun pay h => processRow_no_code env pm hkd e pay h hne⟩
    rw [processRow_resolver]
    exact beq_eq_false_iff_ne.mpr hne
  · exact fun pay h hc => processRow_writeback env pm hkd e pay h hc

/-- Witness for C8: the user-coded row `entryC1`, processed under a map
where `CODE` is resolvable, calls no resolver and sends no `CODE`. -/
theorem c8_witness :
    stepC8.resolverCalled = false ∧ (stepC8.payload.getD default).codeField = none := by
  have h := (c8_code_preserved envC1 pmC8 none entryC1).1 (by decide)
  exact ⟨h.1, h.2 (stepC8.payload.getD default) (by decide)⟩

/-- Counterexample to C9 as stated: for the row with empty identifier and
empty display name, the resolver IS invoked (`code or resolve(name)`
evaluates its right operand, issuing a suggest query for the empty name). -/
theorem c9_counterexample :
    stepC9.resolverCalled = true ∧ stepC9.payload = none := by decide

/-- C9 (amended): a row whose identifier and display name are both empty
invokes the resolver on the empty name; if that resolution is absent the
row is skipped without any payload and without being counted. -/
theorem c9_empty_row_amended (env : Env) (pm : List (String × String)) (hkd : Option ℚ)
    (e : Entry) (hc : e.code = "") (hn : e.name = "") :
    (processRow env pm hkd e).1.resolverCalled = true
    ∧ (get_stock_code_by_name env.suggestResponse "" = none →
        (processRow env pm hkd e).1.payload = none
        ∧ (processRow env pm hkd e).1.counted = false) := by
  constructor
  · rw [processRow_resolver, hc]
    rfl
  · intro hr
    unfold processRow
    try dsimp only
    rw [hc, hn]
    simp [hr]

/-- Witness for C9 (amended): the concrete empty row is skipped uncounted. -/
theorem c9_witness : stepC9.payload = none ∧ stepC9.counted = false := by
  have h := (c9_empty_row_amended envC9 pmC9 none entryC9 (by decide) (by decide)).2 (by decide)
  exact h

/-- C10: every column name appearing as a value of the fuzzy property map
is a key of the input schema, and the map binds each canonical field at
most once (its keys are nodup). -/
theorem c10_map_targets_exist :
    (∀ (props : List (String × String)) (k col : String),
        lookupMap (fuzzy_map_properties props) k = some col → col ∈ props.map Prod.fst)
    ∧ (∀ props : List (String × String), ((fuzzy_map_properties props).map Prod.fst).Nodup) := by
  constructor
  · intro props k col h
    unfold lookupMap at h
    rcases Option.map_eq_some'.mp h with ⟨p, hfind, hp2⟩
    have hmem := List.mem_of_find?_eq_some hfind
    unfold fuzzy_map_properties at hmem
    rcases List.mem_filterMap.mp hmem with ⟨r, hr, hfr⟩
    rcases Option.map_eq_some'.mp hfr with ⟨real, hreal, hpair⟩
    subst hp2
    rw [← hpair]
    unfold mapField at hreal
    rcases hfs : r.2.findSome? (fun syn => actualLookup props (lowerStr syn)) with _ | real2
    · rw [hfs] at hreal
      simp only [] at hreal
      split at hreal
      · rcases Option.map_eq_some'.mp hreal with ⟨qc, hq, hq1⟩
        have hqm := List.mem_of_find?_eq_some hq
        rw [← hq1]
        exact List.mem_map_of_mem Prod.fst hqm
      · exact Option.noConfusion hreal
    · rw [hfs] at hreal
      have hv : real2 = real := Option.some.inj hreal
      subst hv
      rcases List.exists_of_findSome?_eq_some hfs with ⟨syn, hsyn, hal⟩
      unfold actualLookup at hal
      rcases Option.map_eq_some'.mp hal with ⟨qc, hq, hq1⟩
      have hqm := List.mem_reverse.mp (List.mem_of_find?_eq_some hq)
      rw [← hq1]
      exact List.mem_map_of_mem Prod.fst hqm
  · intro props
    have hsub : List.Sublist ((fuzzy_map_properties props).map Prod.fst)
        (mapping_rules.map Prod.fst) := by
      unfold fuzzy_map_properties
      generalize mapping_rules = l
      induction l with
      | nil => simp
      | cons r rest ih =>
        rw [List.filterMap_cons]
        cases h : mapField props r.1 r.2 with
        | none => exact ih.cons r.1
        | some real =>
          rw [Option.map_some', List.map_cons]
          exact ih.cons₂ r.1
    exact ((by decide : (mapping_rules.map Prod.fst).Nodup)).sublist hsub

/-- Witness for C10: under `propsC10`, `PRICE` resolves to the non-Latin
column name, which is indeed a schema key. -/
theorem c10_witness :
    lookupMap (fuzzy_map_properties propsC10) "PRICE" = some "现价"
    ∧ "现价" ∈ propsC10.map Prod.fst := by
  refine ⟨by decide, c10_map_targets_exist.1 propsC10 "PRICE" "现价" (by decide)⟩

lemma runAux_patch (env : Env) (pm : List (String × String)) (f : String → Bool) :
    ∀ (entries : List Entry) (hkd : Option ℚ),
      successCount (runAux { env with patchOk := f } pm hkd entries)
        = successCount (runAux env pm hkd entries) := by
  intro entries
  induction entries with
  | nil => intro hkd; rfl
  | cons e rest ih =>
    intro hkd
    rw [runAux, runAux, successCount_cons, successCount_cons]
    rcases processRow_patch env pm hkd e f with ⟨hc, -, hsnd⟩
    rw [hc, hsnd, ih]

/-- Counterexample to C1 as stated: in the concrete run `envC1` the quote
succeeds but the store write fails, yet the reported count is 1 while the
number of successful writes is 0 (the patch outcome is ignored). -/
theorem c1_counterexample :
    (main_run envC1).2 = 1
    ∧ ((main_run envC1).1.filter (fun s => s.writeOk)).length = 0 := by decide

/-- C1 (amended): the reported success count equals the number of rows for
which an update request was issued (all steps through the quote succeeded);
the write outcome plays no role, so it is invariant under any change of the
store's patch behaviour. -/
theorem c1_success_count_amended (env : Env) (f : String → Bool) :
    (main_run { env with patchOk := f }).2 = (main_run env).2
    ∧ (main_run env).2 = ((main_run env).1.filter (fun s => s.payload.isSome)).length := by
  constructor
  · unfold main_run
    try dsimp only
    split
    · exact runAux_patch env _ f env.entries none
    · rfl
  · unfold main_run
    split
    · try dsimp only
      have hcg : ∀ s ∈ runAux env (verify_database env.dbProps).2 none env.entries,
          (fun t : RowStep => t.counted) s = (fun t : RowStep => t.payload.isSome) s := by
        intro s hs
        rcases runAux_mem hs with ⟨hkd0, e0, rfl, -⟩
        exact processRow_counted env _ hkd0 e0
      unfold successCount
      rw [List.filter_congr hcg]
    · rfl

/-- C4: if no actual column matches any `PRICE` synonym (case-insensitive,
whitespace-trimmed), schema verification fails and the run aborts with an
empty trace and count 0 — no row is read, fetched, or written. -/
theorem c4_price_gating (env : Env)
    (h : ∀ col ∈ env.dbProps.map Prod.fst, ∀ syn ∈ price_synonyms,
        lowerStr (wsTrim col) ≠ lowerStr syn) :
    (verify_database env.dbProps).1 = false ∧ main_run env = ([], 0) := by
  have hal : ∀ syn ∈ price_synonyms, actualLookup env.dbProps (lowerStr syn) = none := by
    intro syn hs
    unfold actualLookup
    rw [List.find?_eq_none.mpr ?_]
    · rfl
    · intro p hp
      have hmem : p.1 ∈ env.dbProps.map Prod.fst :=
        List.mem_map_of_mem Prod.fst (List.mem_reverse.mp hp)
      simpa using h p.1 hmem syn hs
  have hm : mapField env.dbProps "PRICE" price_synonyms = none := by
    unfold mapField
    rw [List.findSome?_eq_none_iff.mpr hal]
    rfl
  have hkf : hasKey (fuzzy_map_properties env.dbProps) "PRICE" = false := by
    unfold hasKey lookupMap
    rw [List.find?_eq_none.mpr ?_]
    · rfl
    · intro x hx
      unfold fuzzy_map_properties at hx
      rcases List.mem_filterMap.mp hx with ⟨r, hr, hfr⟩
      rcases Option.map_eq_some'.mp hfr with ⟨real, hreal, hpair⟩
      subst hpair
      fin_cases hr
      all_goals try simp
      · -- the PRICE rule: its resolution is none, contradiction
        dsimp only at hreal
        have hm2 : mapField env.dbProps "PRICE"
            ["Current Price", "Price", "价格", "现价", "当前价格"] = none := hm
        rw [hm2] at hreal
        exact Option.noConfusion hreal
  constructor
  · unfold verify_database
    exact hkf
  · unfold main_run
    rw [show (verify_database env.dbProps).1 = false from hkf, Bool.and_false]
    rfl

/-- Witness for C4: the schema `propsC4` (title column plus a `Cost`
column) matches no `PRICE` synonym, so its run aborts with nothing done. -/
theorem c4_witness : (verify_database envC4.dbProps).1 = false ∧ main_run envC4 = ([], 0) :=
  c4_price_gating envC4 (by decide)

/-- C5: within one run the FX endpoint is called at most once; if any
cross-border row is processed through the rate stage the call count is
exactly one (the first such row fetches, later ones reuse the cache), and
every processed domestic row uses rate 1 without fetching. -/
theorem c5_rate_at_most_once (env : Env) :
    rateFetchCount (main_run env).1 ≤ 1
    ∧ ((∃ s ∈ (main_run env).1, hkProcessed s = true) →
        rateFetchCount (main_run env).1 = 1)
    ∧ (∀ s ∈ (main_run env).1, s.payload.isSome = true → isHKStep s = false →
        s.fetchedRate = false ∧ s.rateUsed = some 1) := by
  unfold main_run
  split
  · try dsimp only
    refine ⟨runAux_fetch_le_one env _ env.entries none, runAux_first_hk env _ env.entries, ?_⟩
    intro s hs hp hd
    rcases runAux_mem hs with ⟨hkd0, e0, rfl, -⟩
    exact processRow_domestic env _ hkd0 e0 hp hd
  · simp [rateFetchCount]

/-- Witness for C5: the run `envC5` processes two cross-border rows and
calls the FX endpoint exactly once. -/
theorem c5_witness : rateFetchCount (main_run envC5).1 = 1 :=
  (c5_rate_at_most_once envC5).2.1 (by decide)

/-- C6: the stored `PRICE` is isolated from the exchange rate — two
payloads differing only in the rate agree on `PRICE`, `UPDATE` and `CODE`
(only ROI and `EXCHANGE_RATE` may differ), and every payload of a run
carries as `PRICE` (when mapped) exactly the native-market quote. -/
theorem c6_price_isolated_from_rate :
    (∀ (pm : List (String × String)) (p : ℚ) (c : Option String) (b q r r2 : ℚ)
        (now : String),
      (update_notion_page pm p c b q r now).price = (update_notion_page pm p c b q r2 now).price
      ∧ (update_notion_page pm p c b q r now).lastUpdated
          = (update_notion_page pm p c b q r2 now).lastUpdated
      ∧ (update_notion_page pm p c b q r now).codeField
          = (update_notion_page pm p c b q r2 now).codeField)
    ∧ (∀ env : Env, ∀ s ∈ (main_run env).1, ∀ pay, s.payload = some pay →
        pay.price = none ∨ pay.price = s.rawPrice) := by
  constructor
  · intro pm p c b q r r2 now
    exact ⟨rfl, rfl, rfl⟩
  · intro env s hs pay hp
    revert hp
    revert hs
    unfold main_run
    split
    · intro hs hp
      try dsimp only at hs
      rcases runAux_mem hs with ⟨hkd0, e0, rfl, -⟩
      exact processRow_price env _ hkd0 e0 pay hp
    · intro hs
      simp at hs

/-- Witness for C6: the first payload of the `envC5` run stores the raw
cross-border quote, unconverted. -/
theorem c6_witness : payC6.price = none ∨ payC6.price = stepC6.rawPrice :=
  c6_price_isolated_from_rate.2 envC5 stepC6 (by decide) payC6 (by decide)

/-- C7: the ROI summary is computed exactly when `buy_price > 0` and
`ROI_DETAILS` is mapped; any non-negative per-unit profit is rendered with
a leading `+` and the positive color token; and the reference inputs
`buy_price = 10`, `raw_price = 12`, `quantity = 100`, `rate = 1` yield
20.00 percent, a 200.00 total, a `+`-prefixed summary, and color `red`. -/
theorem c7_roi_sign_convention :
    (∀ (pm : List (String × String)) (p : ℚ) (c : Option String) (b q r : ℚ) (now : String),
      (update_notion_page pm p c b q r now).roi.isSome = true
        ↔ (hasKey pm "ROI_DETAILS" = true ∧ 0 < b))
    ∧ (∀ p b q r : ℚ, 0 ≤ p - b →
        (roiStatus p b q r).1.data.head? = some '+' ∧ (roiStatus p b q r).2 = "red")
    ∧ roiStatus 12 10 100 1 = ("+20.00% (+200.00 CNY)", "red") := by
  refine ⟨?_, ?_, ?_⟩
  · intro pm p c b q r now
    unfold update_notion_page
    try dsimp only
    split <;> simp_all
  · intro p b q r h
    unfold roiStatus
    try dsimp only
    rw [if_pos h, if_pos h]
    constructor
    · simp [String.data_append, show ("+" : String).data = ['+'] from rfl]
    · rfl
  · have h0 : (0 : ℚ) ≤ 12 - 10 := by norm_num
    have h20 : qRoundCents ((12 - 10 : ℚ) / 10 * 100) = 2000 := by
      rw [qRoundCents, qfloor_eq]
      norm_num
    have h200 : qRoundCents ((12 - 10 : ℚ) * 100 * 1) = 20000 := by
      rw [qRoundCents, qfloor_eq]
      norm_num
    unfold roiStatus fmt2 fmtGrouped2
    try dsimp only
    rw [if_pos h0, if_pos h0, h20, h200]
    decide

/-- Witness for C7: the reference inputs have non-negative per-unit profit,
so the summary leads with `+` and carries the positive color token. -/
theorem c7_witness :
    (roiStatus 12 10 100 1).1.data.head? = some '+'
    ∧ (roiStatus 12 10 100 1).2 = "red" :=
  c7_roi_sign_convention.2.1 12 10 100 1 (by norm_num)

end NotionUpdate
